import Mathlib

/-!
Verification of `lockfree_circulation_buffer` (include/lockfree/lockfree_circulation_buffer.hpp).

The buffer's whole shared state is one 32-bit word (`rpwp_`) holding, in packed
form, the 15-bit `write_pointer`, the `write_locked` bit, the 15-bit
`read_pointer` and the `read_locked` bit.  We embed the word as a `Nat`
(values below `2^32`) and translate each C++ member function into a pure Lean
function on the word.  Every mutating member function of the source is a
load / validate / compute / compare-and-swap loop; in the sequential semantics
embedded here the compare-and-swap succeeds on its first attempt, and a
precondition failure exits the loop before any compare-and-swap, leaving the
word untouched, exactly as in the source.
-/

namespace Lockfree

/-- `INVALID_INDEX = static_cast<index_t>(-1)` on `uint16_t` (line 46). -/
def INVALID_INDEX : Nat := 0xffff

/-- Mask of the `write_pointer` field (line 139). -/
def WRITE_POINTER_MASK : Nat := 0x00007fff

/-- Mask of the `write_locked` bit (line 140). -/
def WRITE_LOCK_BIT_MASK : Nat := 0x00008000

/-- Mask of the `read_pointer` field (line 142). -/
def READ_POINTER_MASK : Nat := 0x7fff0000

/-- Mask of the `read_locked` bit (line 143). -/
def READ_LOCK_BIT_MASK : Nat := 0x80000000

/-- `write_pointer(x)` (lines 176-180): `(x & WRITE_POINTER_MASK) >> 0`. -/
def write_pointer (x : Nat) : Nat := x &&& WRITE_POINTER_MASK

/-- `is_write_locked(x)` (lines 182-186): `(x & WRITE_LOCK_BIT_MASK) != 0`. -/
def is_write_locked (x : Nat) : Bool := decide (x &&& WRITE_LOCK_BIT_MASK ≠ 0)

/-- `read_pointer(x)` (lines 188-193): `(x & READ_POINTER_MASK) >> 16`. -/
def read_pointer (x : Nat) : Nat := (x &&& READ_POINTER_MASK) >>> 16

/-- `is_read_locked(x)` (lines 195-199): `(x & READ_LOCK_BIT_MASK) != 0`. -/
def is_read_locked (x : Nat) : Bool := decide (x &&& READ_LOCK_BIT_MASK ≠ 0)

/-- `next_pointer(x)` (lines 201-206): `(x + 1U) % N`.  `x` is a `uint16_t`
pointer value, so the 32-bit unsigned addition `x + 1U` never wraps and the
plain `Nat` rendering is exact. -/
def next_pointer (N x : Nat) : Nat := (x + 1) % N

/-- `prev_pointer(x)` (lines 208-213): `(x - 1U) % N`.  The subtraction is
performed on 32-bit unsigned arithmetic, so for `x < 2^32` it denotes
`(x + 2^32 - 1) mod 2^32`, and only then is the modulus by `N` taken. -/
def prev_pointer (N x : Nat) : Nat := ((x + (2 ^ 32 - 1)) % 2 ^ 32) % N

/-- `mod_write_pointer(x, wp)` (lines 215-221): `(x & ~WRITE_POINTER_MASK) | (wp << 0)`.
The complement is taken within the 32-bit word, i.e. `0xffffffff ^^^ mask`. -/
def mod_write_pointer (x wp : Nat) : Nat :=
  (x &&& (0xffffffff ^^^ WRITE_POINTER_MASK)) ||| wp

/-- `mod_read_pointer(x, rp)` (lines 223-229): `(x & ~READ_POINTER_MASK) | (rp << 16)`. -/
def mod_read_pointer (x rp : Nat) : Nat :=
  (x &&& (0xffffffff ^^^ READ_POINTER_MASK)) ||| (rp <<< 16)

/-- `mod_write_locked(x, locked)` (lines 231-238). -/
def mod_write_locked (x : Nat) (locked : Bool) : Nat :=
  if locked then x ||| WRITE_LOCK_BIT_MASK
  else x &&& (0xffffffff ^^^ WRITE_LOCK_BIT_MASK)

/-- `mod_read_locked(x, locked)` (lines 240-247). -/
def mod_read_locked (x : Nat) (locked : Bool) : Nat :=
  if locked then x ||| READ_LOCK_BIT_MASK
  else x &&& (0xffffffff ^^^ READ_LOCK_BIT_MASK)

/-- `count(x)` (lines 249-260).  When `wp < rp` the C++ computes
`N - rp + wp` in `size_t` arithmetic, left to right, so each intermediate
result is reduced modulo `2^64`. -/
def count (N x : Nat) : Nat :=
  let rp := read_pointer x
  let wp := write_pointer x
  if rp ≤ wp then wp - rp
  else ((N + (2 ^ 64 - rp)) % 2 ^ 64 + wp) % 2 ^ 64

/-- `empty()` (lines 262-267). -/
def empty (x : Nat) : Bool := decide (read_pointer x = write_pointer x)

/-- `size()` (lines 275-279). -/
def size (N x : Nat) : Nat := count N x

/-- `capacity()` (lines 281-285): `N - 1`. -/
def capacity (N : Nat) : Nat := N - 1

/-- `full()` (lines 269-273): `size() == capacity()`. -/
def full (N x : Nat) : Bool := decide (size N x = capacity N)

/-- `lock_write(index, min_free)` (lines 287-320), sequential semantics.
Returns `(result, new word, index)`.  The free-space check computes
`(N - 1) - count` in `size_t` arithmetic (reduced modulo `2^64`).  On a
precondition failure the loop `break`s before the compare-and-swap, so the
word is unchanged and `index = INVALID_INDEX`; on success the word becomes
`mod_write_locked(expected, true)` and `index = write_pointer(desired)`. -/
def lock_write (N x min_free : Nat) : Bool × Nat × Nat :=
  if is_write_locked x then (false, x, INVALID_INDEX)
  else
    let free_count := ((N - 1) + (2 ^ 64 - count N x)) % 2 ^ 64
    if ¬ (free_count > min_free) then (false, x, INVALID_INDEX)
    else
      let desired := mod_write_locked x true
      (true, desired, write_pointer desired)

/-- `unlock_write(index, commit)` (lines 322-356), sequential semantics.
Returns `(result, new word)`. -/
def unlock_write (N x index : Nat) (commit : Bool) : Bool × Nat :=
  if index ≠ write_pointer x then (false, x)
  else if ¬ is_write_locked x then (false, x)
  else
    let desired :=
      if commit then mod_write_pointer x (next_pointer N (write_pointer x))
      else x
    (true, mod_write_locked desired false)

/-- `lock_read(index, min_remains)` (lines 358-390), sequential semantics. -/
def lock_read (N x min_remains : Nat) : Bool × Nat × Nat :=
  if is_read_locked x then (false, x, INVALID_INDEX)
  else if ¬ (count N x > min_remains) then (false, x, INVALID_INDEX)
  else
    let desired := mod_read_locked x true
    (true, desired, read_pointer desired)

/-- `unlock_read(index, commit)` (lines 392-426), sequential semantics. -/
def unlock_read (N x index : Nat) (commit : Bool) : Bool × Nat :=
  if index ≠ read_pointer x then (false, x)
  else if ¬ is_read_locked x then (false, x)
  else
    let desired :=
      if commit then mod_read_pointer x (next_pointer N (read_pointer x))
      else x
    (true, mod_read_locked desired false)

/-- `try_clear()` (lines 428-446), sequential semantics. -/
def try_clear (x : Nat) : Bool × Nat :=
  if ¬ is_write_locked x ∧ ¬ is_read_locked x then
    (true, mod_read_pointer x (write_pointer x))
  else (false, x)

/-!
### Arithmetic characterizations of the bit-level primitives

Each masked accessor and field-update of the source is shown equal to a plain
`Nat` division / modulus expression, after which all further reasoning is
linear arithmetic.
-/

/-- Masking with a shifted mask is shifting, masking, and shifting back. -/
lemma and_shiftLeft_mask (x m k : Nat) : x &&& (m <<< k) = ((x >>> k) &&& m) <<< k := by
  apply Nat.eq_of_testBit_eq
  intro i
  simp only [Nat.testBit_and, Nat.testBit_shiftLeft, Nat.testBit_shiftRight]
  by_cases h : k ≤ i
  · have hik : k + (i - k) = i := by omega
    simp only [ge_iff_le, h, decide_eq_true_eq, hik]
    cases Nat.testBit x i <;> cases Nat.testBit m (i - k) <;> simp [h]
  · simp [h]

/-- `x &&& 2^k` picks out bit `k`, as arithmetic. -/
lemma and_two_pow_arith (x k : Nat) : x &&& 2 ^ k = (x / 2 ^ k % 2) * 2 ^ k := by
  rw [Nat.and_two_pow]
  congr 1
  rw [Nat.testBit_to_div_mod]
  by_cases h : x / 2 ^ k % 2 = 1
  · simp [h]
  · simp [h]
    omega

/-- Setting a single bit below a known small value, as arithmetic. -/
lemma lor_two_pow_of_lt (l k : Nat) (hlt : l < 2 ^ (k + 1)) :
    l ||| 2 ^ k = 2 ^ k + l % 2 ^ k := by
  have hpow : 2 ^ (k + 1) = 2 ^ k * 2 := pow_succ 2 k
  have hdm := Nat.div_add_mod l (2 ^ k)
  have hmlt : l % 2 ^ k < 2 ^ k := Nat.mod_lt _ (Nat.two_pow_pos _)
  have hdlt : l / 2 ^ k < 2 := by
    rw [Nat.div_lt_iff_lt_mul (Nat.two_pow_pos _)]
    omega
  have hdiv : l / 2 ^ k = 0 ∨ l / 2 ^ k = 1 := by
    generalize l / 2 ^ k = d at hdlt ⊢
    omega
  rcases hdiv with h0 | h1
  · rw [h0, Nat.mul_zero, Nat.zero_add] at hdm
    have hlk : l < 2 ^ k := hdm ▸ hmlt
    have h := Nat.mul_add_lt_is_or hlk 1
    rw [Nat.lor_comm, Nat.mod_eq_of_lt hlk]
    simpa using h.symm
  · rw [h1] at hdm
    have hq : l = 2 ^ k * 1 + l % 2 ^ k := hdm.symm
    have h := Nat.mul_add_lt_is_or hmlt 1
    calc l ||| 2 ^ k = (2 ^ k * 1 ||| l % 2 ^ k) ||| 2 ^ k := by rw [← h, ← hq]
      _ = (l % 2 ^ k ||| 2 ^ k * 1) ||| 2 ^ k := by rw [Nat.lor_comm (2 ^ k * 1)]
      _ = l % 2 ^ k ||| (2 ^ k * 1 ||| 2 ^ k) := by rw [Nat.or_assoc]
      _ = l % 2 ^ k ||| 2 ^ k := by rw [mul_one, Nat.or_self]
      _ = 2 ^ k * 1 ||| l % 2 ^ k := by rw [Nat.lor_comm, mul_one]
      _ = 2 ^ k + l % 2 ^ k := by rw [← h, Nat.mul_one]

/-- Setting a single bit, as arithmetic. -/
lemma or_two_pow_arith (x k : Nat) :
    x ||| 2 ^ k = 2 ^ (k + 1) * (x / 2 ^ (k + 1)) + 2 ^ k + x % 2 ^ k := by
  have hlt : x % 2 ^ (k + 1) < 2 ^ (k + 1) := Nat.mod_lt _ (Nat.two_pow_pos _)
  have hmm : x % 2 ^ (k + 1) % 2 ^ k = x % 2 ^ k :=
    Nat.mod_mod_of_dvd x (pow_dvd_pow 2 (Nat.le_succ k))
  have hmlt : x % 2 ^ k < 2 ^ k := Nat.mod_lt _ (Nat.two_pow_pos _)
  have hpow : 2 ^ (k + 1) = 2 ^ k * 2 := pow_succ 2 k
  have hsum : 2 ^ k + x % 2 ^ (k + 1) % 2 ^ k < 2 ^ (k + 1) := by
    rw [hmm, hpow]; omega
  calc x ||| 2 ^ k
      = (2 ^ (k + 1) * (x / 2 ^ (k + 1)) + x % 2 ^ (k + 1)) ||| 2 ^ k := by
        rw [Nat.div_add_mod]
    _ = (2 ^ (k + 1) * (x / 2 ^ (k + 1)) ||| x % 2 ^ (k + 1)) ||| 2 ^ k := by
        rw [Nat.mul_add_lt_is_or hlt]
    _ = 2 ^ (k + 1) * (x / 2 ^ (k + 1)) ||| (x % 2 ^ (k + 1) ||| 2 ^ k) := by
        rw [Nat.or_assoc]
    _ = 2 ^ (k + 1) * (x / 2 ^ (k + 1)) ||| (2 ^ k + x % 2 ^ (k + 1) % 2 ^ k) := by
        rw [lor_two_pow_of_lt _ _ hlt]
    _ = 2 ^ (k + 1) * (x / 2 ^ (k + 1)) + (2 ^ k + x % 2 ^ (k + 1) % 2 ^ k) := by
        rw [← Nat.mul_add_lt_is_or hsum]
    _ = 2 ^ (k + 1) * (x / 2 ^ (k + 1)) + 2 ^ k + x % 2 ^ k := by
        rw [hmm, ← Nat.add_assoc]

/-- Disjoint high/low `or` is addition (restatement of `Nat.mul_add_lt_is_or`). -/
lemma mul_or_eq (i a b : Nat) (h : b < 2 ^ i) : 2 ^ i * a ||| b = 2 ^ i * a + b :=
  (Nat.mul_add_lt_is_or h a).symm

/-- The `write_pointer` field is the low 15 bits. -/
lemma write_pointer_eq (x : Nat) : write_pointer x = x % 2 ^ 15 := by
  rw [write_pointer, show WRITE_POINTER_MASK = 2 ^ 15 - 1 by decide]
  exact Nat.and_pow_two_sub_one_eq_mod x 15

/-- The `read_pointer` field is bits 16..30. -/
lemma read_pointer_eq (x : Nat) : read_pointer x = x / 2 ^ 16 % 2 ^ 15 := by
  rw [read_pointer, show READ_POINTER_MASK = (2 ^ 15 - 1) <<< 16 by decide,
    and_shiftLeft_mask, Nat.shiftLeft_eq, Nat.shiftRight_eq_div_pow,
    Nat.shiftRight_eq_div_pow,
    Nat.mul_div_cancel _ (Nat.two_pow_pos 16),
    Nat.and_pow_two_sub_one_eq_mod]

/-- The `write_locked` flag is bit 15. -/
lemma is_write_locked_eq (x : Nat) :
    is_write_locked x = decide (x / 2 ^ 15 % 2 = 1) := by
  rw [is_write_locked, show WRITE_LOCK_BIT_MASK = 2 ^ 15 by decide,
    and_two_pow_arith]
  by_cases hb : x / 2 ^ 15 % 2 = 1
  · simp [hb]
  · have h0 : x / 2 ^ 15 % 2 = 0 := by omega
    simp [h0]

/-- The `read_locked` flag is bit 31. -/
lemma is_read_locked_eq (x : Nat) :
    is_read_locked x = decide (x / 2 ^ 31 % 2 = 1) := by
  rw [is_read_locked, show READ_LOCK_BIT_MASK = 2 ^ 31 by decide,
    and_two_pow_arith]
  by_cases hb : x / 2 ^ 31 % 2 = 1
  · simp [hb]
  · have h0 : x / 2 ^ 31 % 2 = 0 := by omega
    simp [h0]

/-- Setting `write_locked` (the `locked = true` branch of `mod_write_locked`). -/
lemma mod_write_locked_true (x : Nat) :
    mod_write_locked x true = 2 ^ 16 * (x / 2 ^ 16) + 2 ^ 15 + x % 2 ^ 15 := by
  rw [mod_write_locked, if_pos rfl,
    show WRITE_LOCK_BIT_MASK = 2 ^ 15 by decide, or_two_pow_arith]

/-- Clearing `write_locked` (the `locked = false` branch of `mod_write_locked`). -/
lemma mod_write_locked_false (x : Nat) (hx : x < 2 ^ 32) :
    mod_write_locked x false = 2 ^ 16 * (x / 2 ^ 16) + x % 2 ^ 15 := by
  rw [mod_write_locked, if_neg (by simp),
    show (0xffffffff ^^^ WRITE_LOCK_BIT_MASK : Nat)
      = ((2 ^ 16 - 1) <<< 16) ||| (2 ^ 15 - 1) by decide,
    Nat.and_or_distrib_left, and_shiftLeft_mask, Nat.shiftLeft_eq,
    Nat.shiftRight_eq_div_pow, Nat.and_pow_two_sub_one_eq_mod,
    Nat.and_pow_two_sub_one_eq_mod,
    Nat.mod_eq_of_lt (show x / 2 ^ 16 < 2 ^ 16 by omega),
    Nat.mul_comm (x / 2 ^ 16) (2 ^ 16),
    mul_or_eq 16 (x / 2 ^ 16) (x % 2 ^ 15) (by omega)]

/-- Setting `read_locked` (the `locked = true` branch of `mod_read_locked`). -/
lemma mod_read_locked_true (x : Nat) (hx : x < 2 ^ 32) :
    mod_read_locked x true = 2 ^ 31 + x % 2 ^ 31 := by
  rw [mod_read_locked, if_pos rfl,
    show READ_LOCK_BIT_MASK = 2 ^ 31 by decide, or_two_pow_arith,
    show (31 : Nat) + 1 = 32 from rfl,
    Nat.div_eq_of_lt hx]
  omega

/-- Clearing `read_locked` (the `locked = false` branch of `mod_read_locked`). -/
lemma mod_read_locked_false (x : Nat) : mod_read_locked x false = x % 2 ^ 31 := by
  rw [mod_read_locked, if_neg (by simp),
    show (0xffffffff ^^^ READ_LOCK_BIT_MASK : Nat) = 2 ^ 31 - 1 by decide,
    Nat.and_pow_two_sub_one_eq_mod]

/-- Replacing the `write_pointer` field (`mod_write_pointer`). -/
lemma mod_write_pointer_eq (x wp : Nat) (hx : x < 2 ^ 32) (hwp : wp < 2 ^ 15) :
    mod_write_pointer x wp = 2 ^ 15 * (x / 2 ^ 15) + wp := by
  rw [mod_write_pointer,
    show (0xffffffff ^^^ WRITE_POINTER_MASK : Nat) = (2 ^ 17 - 1) <<< 15 by decide,
    and_shiftLeft_mask, Nat.shiftLeft_eq, Nat.shiftRight_eq_div_pow,
    Nat.and_pow_two_sub_one_eq_mod,
    Nat.mod_eq_of_lt (show x / 2 ^ 15 < 2 ^ 17 by omega),
    Nat.mul_comm (x / 2 ^ 15) (2 ^ 15),
    mul_or_eq 15 (x / 2 ^ 15) wp hwp]

/-- Replacing the `read_pointer` field (`mod_read_pointer`). -/
lemma mod_read_pointer_eq (x rp : Nat) (hx : x < 2 ^ 32) (hrp : rp < 2 ^ 15) :
    mod_read_pointer x rp = 2 ^ 31 * (x / 2 ^ 31) + 2 ^ 16 * rp + x % 2 ^ 16 := by
  rw [mod_read_pointer,
    show (0xffffffff ^^^ READ_POINTER_MASK : Nat) = (2 ^ 31) ||| (2 ^ 16 - 1) by decide,
    Nat.and_or_distrib_left, and_two_pow_arith,
    Nat.and_pow_two_sub_one_eq_mod,
    Nat.mod_eq_of_lt (show x / 2 ^ 31 < 2 by omega),
    Nat.mul_comm (x / 2 ^ 31) (2 ^ 31),
    mul_or_eq 31 (x / 2 ^ 31) (x % 2 ^ 16) (by omega),
    Nat.shiftLeft_eq, Nat.mul_comm rp (2 ^ 16)]
  rw [show (2 : Nat) ^ 31 * (x / 2 ^ 31) + x % 2 ^ 16
      = 2 ^ 31 * (x / 2 ^ 31) ||| x % 2 ^ 16 from
      (mul_or_eq 31 (x / 2 ^ 31) (x % 2 ^ 16) (by omega)).symm,
    Nat.or_assoc, Nat.lor_comm (x % 2 ^ 16) (2 ^ 16 * rp),
    mul_or_eq 16 rp (x % 2 ^ 16) (by omega),
    mul_or_eq 31 (x / 2 ^ 31) (2 ^ 16 * rp + x % 2 ^ 16) (by omega)]
  omega

/-!
### Field effects of the update primitives, and well-formed words
-/

/-- A well-formed state word for capacity parameter `N`: the word fits in the
32-bit `rpwp_` register and both pointer fields are valid storage indices. -/
def WF (N x : Nat) : Prop :=
  x < 2 ^ 32 ∧ write_pointer x < N ∧ read_pointer x < N

instance (N x : Nat) : Decidable (WF N x) := by
  unfold WF
  infer_instance

/-- `mod_write_locked x true` sets only the `write_locked` bit. -/
lemma mwl_true_fields (x : Nat) (hx : x < 2 ^ 32) :
    write_pointer (mod_write_locked x true) = write_pointer x ∧
    read_pointer (mod_write_locked x true) = read_pointer x ∧
    is_read_locked (mod_write_locked x true) = is_read_locked x ∧
    is_write_locked (mod_write_locked x true) = true ∧
    mod_write_locked x true < 2 ^ 32 := by
  rw [mod_write_locked_true, write_pointer_eq, write_pointer_eq,
    read_pointer_eq, read_pointer_eq, is_read_locked_eq, is_read_locked_eq,
    is_write_locked_eq]
  refine ⟨by omega, by omega, decide_eq_decide.mpr (by omega), ?_, by omega⟩
  simp only [decide_eq_true_eq]
  omega

/-- `mod_write_locked x false` clears only the `write_locked` bit. -/
lemma mwl_false_fields (x : Nat) (hx : x < 2 ^ 32) :
    write_pointer (mod_write_locked x false) = write_pointer x ∧
    read_pointer (mod_write_locked x false) = read_pointer x ∧
    is_read_locked (mod_write_locked x false) = is_read_locked x ∧
    is_write_locked (mod_write_locked x false) = false ∧
    mod_write_locked x false < 2 ^ 32 := by
  rw [mod_write_locked_false x hx, write_pointer_eq, write_pointer_eq,
    read_pointer_eq, read_pointer_eq, is_read_locked_eq, is_read_locked_eq,
    is_write_locked_eq]
  refine ⟨by omega, by omega, decide_eq_decide.mpr (by omega), ?_, by omega⟩
  simp only [decide_eq_false_iff_not]
  omega

/-- `mod_read_locked x true` sets only the `read_locked` bit. -/
lemma mrl_true_fields (x : Nat) (hx : x < 2 ^ 32) :
    write_pointer (mod_read_locked x true) = write_pointer x ∧
    read_pointer (mod_read_locked x true) = read_pointer x ∧
    is_write_locked (mod_read_locked x true) = is_write_locked x ∧
    is_read_locked (mod_read_locked x true) = true ∧
    mod_read_locked x true < 2 ^ 32 := by
  rw [mod_read_locked_true x hx, write_pointer_eq, write_pointer_eq,
    read_pointer_eq, read_pointer_eq, is_write_locked_eq, is_write_locked_eq,
    is_read_locked_eq]
  refine ⟨by omega, by omega, decide_eq_decide.mpr (by omega), ?_, by omega⟩
  simp only [decide_eq_true_eq]
  omega

/-- `mod_read_locked x false` clears only the `read_locked` bit. -/
lemma mrl_false_fields (x : Nat) (hx : x < 2 ^ 32) :
    write_pointer (mod_read_locked x false) = write_pointer x ∧
    read_pointer (mod_read_locked x false) = read_pointer x ∧
    is_write_locked (mod_read_locked x false) = is_write_locked x ∧
    is_read_locked (mod_read_locked x false) = false ∧
    mod_read_locked x false < 2 ^ 32 := by
  rw [mod_read_locked_false, write_pointer_eq, write_pointer_eq,
    read_pointer_eq, read_pointer_eq, is_write_locked_eq, is_write_locked_eq,
    is_read_locked_eq]
  refine ⟨by omega, by omega, decide_eq_decide.mpr (by omega), ?_, by omega⟩
  simp only [decide_eq_false_iff_not]
  omega

/-- `mod_write_pointer x wp` replaces only the `write_pointer` field. -/
lemma mwp_fields (x wp : Nat) (hx : x < 2 ^ 32) (hwp : wp < 2 ^ 15) :
    write_pointer (mod_write_pointer x wp) = wp ∧
    read_pointer (mod_write_pointer x wp) = read_pointer x ∧
    is_write_locked (mod_write_pointer x wp) = is_write_locked x ∧
    is_read_locked (mod_write_pointer x wp) = is_read_locked x ∧
    mod_write_pointer x wp < 2 ^ 32 := by
  rw [mod_write_pointer_eq x wp hx hwp, write_pointer_eq, read_pointer_eq,
    read_pointer_eq, is_write_locked_eq, is_write_locked_eq,
    is_read_locked_eq, is_read_locked_eq]
  exact ⟨by omega, by omega, decide_eq_decide.mpr (by omega),
    decide_eq_decide.mpr (by omega), by omega⟩

/-- `mod_read_pointer x rp` replaces only the `read_pointer` field. -/
lemma mrp_fields (x rp : Nat) (hx : x < 2 ^ 32) (hrp : rp < 2 ^ 15) :
    read_pointer (mod_read_pointer x rp) = rp ∧
    write_pointer (mod_read_pointer x rp) = write_pointer x ∧
    is_write_locked (mod_read_pointer x rp) = is_write_locked x ∧
    is_read_locked (mod_read_pointer x rp) = is_read_locked x ∧
    mod_read_pointer x rp < 2 ^ 32 := by
  rw [mod_read_pointer_eq x rp hx hrp, write_pointer_eq, write_pointer_eq,
    read_pointer_eq, is_write_locked_eq, is_write_locked_eq,
    is_read_locked_eq, is_read_locked_eq]
  exact ⟨by omega, by omega, decide_eq_decide.mpr (by omega),
    decide_eq_decide.mpr (by omega), by omega⟩

/-!
### `count` and the free-space computation on well-formed words
-/

/-- On valid pointers the `size_t` wraparound in `count` never fires. -/
lemma count_eq (N x : Nat) (hN : N ≤ 2 ^ 15)
    (hr : read_pointer x < N) (hw : write_pointer x < N) :
    count N x = if read_pointer x ≤ write_pointer x
      then write_pointer x - read_pointer x
      else N - read_pointer x + write_pointer x := by
  rw [count]
  split
  · rfl
  · omega

/-- `count` of a well-formed word is at most `N - 1`. -/
lemma count_le (N x : Nat) (hN : N ≤ 2 ^ 15)
    (hr : read_pointer x < N) (hw : write_pointer x < N) :
    count N x ≤ N - 1 := by
  rw [count_eq N x hN hr hw]
  split <;> omega

/-- The `size_t` expression `(N - 1) - count` never wraps on a
well-formed word. -/
lemma free_count_eq (N x : Nat) (hN : N ≤ 2 ^ 15)
    (hr : read_pointer x < N) (hw : write_pointer x < N) :
    ((N - 1) + (2 ^ 64 - count N x)) % 2 ^ 64 = (N - 1) - count N x := by
  have h := count_le N x hN hr hw
  omega

/-!
### Case forms of the five mutating operations
-/

/-- `lock_write` on a well-formed word, in guarded form. -/
lemma lock_write_eq (N x mf : Nat) (hN : N ≤ 2 ^ 15) (hwf : WF N x) :
    lock_write N x mf =
      if is_write_locked x = false ∧ mf < (N - 1) - count N x
      then (true, mod_write_locked x true, write_pointer x)
      else (false, x, INVALID_INDEX) := by
  obtain ⟨hx, hw, hr⟩ := hwf
  simp only [lock_write, free_count_eq N x hN hr hw]
  by_cases hb : is_write_locked x
  · simp [hb]
  · by_cases hc : mf < (N - 1) - count N x
    · simp [hb, hc, (mwl_true_fields x hx).1]
    · simp [hb, hc]

/-- `lock_read` on a well-formed word, in guarded form. -/
lemma lock_read_eq (N x mr : Nat) (hwf : WF N x) :
    lock_read N x mr =
      if is_read_locked x = false ∧ mr < count N x
      then (true, mod_read_locked x true, read_pointer x)
      else (false, x, INVALID_INDEX) := by
  obtain ⟨hx, hw, hr⟩ := hwf
  simp only [lock_read]
  by_cases hb : is_read_locked x
  · simp [hb]
  · by_cases hc : mr < count N x
    · simp [hb, hc, (mrl_true_fields x hx).2.1]
    · simp [hb, hc]

/-- `unlock_write`, in guarded form. -/
lemma unlock_write_eq (N x idx : Nat) (c : Bool) :
    unlock_write N x idx c =
      if idx = write_pointer x ∧ is_write_locked x = true then
        (true, mod_write_locked
          (if c then mod_write_pointer x (next_pointer N (write_pointer x)) else x)
          false)
      else (false, x) := by
  simp only [unlock_write]
  by_cases h1 : idx = write_pointer x
  · by_cases h2 : is_write_locked x <;> simp [h1, h2]
  · simp [h1]

/-- `unlock_read`, in guarded form. -/
lemma unlock_read_eq (N x idx : Nat) (c : Bool) :
    unlock_read N x idx c =
      if idx = read_pointer x ∧ is_read_locked x = true then
        (true, mod_read_locked
          (if c then mod_read_pointer x (next_pointer N (read_pointer x)) else x)
          false)
      else (false, x) := by
  simp only [unlock_read]
  by_cases h1 : idx = read_pointer x
  · by_cases h2 : is_read_locked x <;> simp [h1, h2]
  · simp [h1]

/-- `try_clear`, in guarded form. -/
lemma try_clear_eq (x : Nat) :
    try_clear x =
      if is_write_locked x = false ∧ is_read_locked x = false then
        (true, mod_read_pointer x (write_pointer x))
      else (false, x) := by
  simp only [try_clear]
  by_cases h1 : is_write_locked x
  · simp [h1]
  · by_cases h2 : is_read_locked x <;> simp [h1, h2]

/-!
### Claim theorems: the lock / unlock / clear contracts
-/

/-- C2: `lock_write(min_free)` succeeds iff no write lock is held and the free
count `(N-1) - count` strictly exceeds `min_free`; on success only the
`write_locked` bit changes and the returned index is the current
`write_pointer`; on failure the returned index is `INVALID_INDEX`.
Symmetrically, `lock_read(min_remains)` succeeds iff no read lock is held and
`count` strictly exceeds `min_remains`, setting only `read_locked` and
returning the current `read_pointer`, else returning `INVALID_INDEX`. -/
theorem lock_write_read_spec (N x mf mr : Nat) (h2 : 2 ≤ N) (h15 : N ≤ 32768)
    (hwf : WF N x) :
    ((lock_write N x mf).1 = true ↔
        is_write_locked x = false ∧ mf < (N - 1) - count N x) ∧
    ((lock_write N x mf).1 = true →
        write_pointer (lock_write N x mf).2.1 = write_pointer x ∧
        read_pointer (lock_write N x mf).2.1 = read_pointer x ∧
        is_read_locked (lock_write N x mf).2.1 = is_read_locked x ∧
        is_write_locked (lock_write N x mf).2.1 = true ∧
        (lock_write N x mf).2.2 = write_pointer x) ∧
    ((lock_write N x mf).1 = false → (lock_write N x mf).2.2 = INVALID_INDEX) ∧
    ((lock_read N x mr).1 = true ↔
        is_read_locked x = false ∧ mr < count N x) ∧
    ((lock_read N x mr).1 = true →
        write_pointer (lock_read N x mr).2.1 = write_pointer x ∧
        read_pointer (lock_read N x mr).2.1 = read_pointer x ∧
        is_write_locked (lock_read N x mr).2.1 = is_write_locked x ∧
        is_read_locked (lock_read N x mr).2.1 = true ∧
        (lock_read N x mr).2.2 = read_pointer x) ∧
    ((lock_read N x mr).1 = false → (lock_read N x mr).2.2 = INVALID_INDEX) := by
  obtain ⟨hx, hw, hr⟩ := hwf
  rw [lock_write_eq N x mf (by omega) ⟨hx, hw, hr⟩, lock_read_eq N x mr ⟨hx, hw, hr⟩]
  refine ⟨?_, ?_, ?_, ?_, ?_, ?_⟩
  · by_cases hcw : is_write_locked x = false ∧ mf < (N - 1) - count N x
    · simp [hcw]
    · simp [hcw]
  · intro hs
    by_cases hcw : is_write_locked x = false ∧ mf < (N - 1) - count N x
    · rw [if_pos hcw]
      obtain ⟨h1, h2', h3, h4, h5⟩ := mwl_true_fields x hx
      exact ⟨h1, h2', h3, h4, rfl⟩
    · rw [if_neg hcw] at hs
      simp at hs
  · intro hs
    by_cases hcw : is_write_locked x = false ∧ mf < (N - 1) - count N x
    · rw [if_pos hcw] at hs
      simp at hs
    · rw [if_neg hcw]
  · by_cases hcr : is_read_locked x = false ∧ mr < count N x
    · simp [hcr]
    · simp [hcr]
  · intro hs
    by_cases hcr : is_read_locked x = false ∧ mr < count N x
    · rw [if_pos hcr]
      obtain ⟨h1, h2', h3, h4, h5⟩ := mrl_true_fields x hx
      exact ⟨h1, h2', h3, h4, rfl⟩
    · rw [if_neg hcr] at hs
      simp at hs
  · intro hs
    by_cases hcr : is_read_locked x = false ∧ mr < count N x
    · rw [if_pos hcr] at hs
      simp at hs
    · rw [if_neg hcr]

/-- Witness for `lock_write_read_spec` at `N = 4`, `x = 0`. -/
theorem lock_write_read_spec_witness :
    (2 ≤ 4 ∧ (4 : Nat) ≤ 32768 ∧ WF 4 0) ∧
    ((lock_write 4 0 0).1 = true ↔
        is_write_locked 0 = false ∧ 0 < (4 - 1) - count 4 0) :=
  ⟨⟨by norm_num, by norm_num, by decide⟩,
    (lock_write_read_spec 4 0 0 0 (by norm_num) (by norm_num) (by decide)).1⟩

/-- C3: `unlock_write(index, commit)` succeeds iff `index` equals the live
`write_pointer` and a write lock is held; on success with `commit = true` the
`write_pointer` advances to `(index + 1) mod N` and `write_locked` clears,
with the read-side fields untouched; with `commit = false` only `write_locked`
clears.  Symmetrically for `unlock_read`. -/
theorem unlock_write_read_spec (N x idx : Nat) (c : Bool) (h2 : 2 ≤ N)
    (h15 : N ≤ 32768) (hwf : WF N x) :
    ((unlock_write N x idx c).1 = true ↔
        idx = write_pointer x ∧ is_write_locked x = true) ∧
    ((unlock_write N x idx c).1 = true → c = true →
        write_pointer (unlock_write N x idx c).2 = (idx + 1) % N ∧
        read_pointer (unlock_write N x idx c).2 = read_pointer x ∧
        is_read_locked (unlock_write N x idx c).2 = is_read_locked x ∧
        is_write_locked (unlock_write N x idx c).2 = false) ∧
    ((unlock_write N x idx c).1 = true → c = false →
        write_pointer (unlock_write N x idx c).2 = write_pointer x ∧
        read_pointer (unlock_write N x idx c).2 = read_pointer x ∧
        is_read_locked (unlock_write N x idx c).2 = is_read_locked x ∧
        is_write_locked (unlock_write N x idx c).2 = false) ∧
    ((unlock_read N x idx c).1 = true ↔
        idx = read_pointer x ∧ is_read_locked x = true) ∧
    ((unlock_read N x idx c).1 = true → c = true →
        read_pointer (unlock_read N x idx c).2 = (idx + 1) % N ∧
        write_pointer (unlock_read N x idx c).2 = write_pointer x ∧
        is_write_locked (unlock_read N x idx c).2 = is_write_locked x ∧
        is_read_locked (unlock_read N x idx c).2 = false) ∧
    ((unlock_read N x idx c).1 = true → c = false →
        read_pointer (unlock_read N x idx c).2 = read_pointer x ∧
        write_pointer (unlock_read N x idx c).2 = write_pointer x ∧
        is_write_locked (unlock_read N x idx c).2 = is_write_locked x ∧
        is_read_locked (unlock_read N x idx c).2 = false) := by
  obtain ⟨hx, hw, hr⟩ := hwf
  have hnw : next_pointer N (write_pointer x) < N := by
    unfold next_pointer
    exact Nat.mod_lt _ (by omega)
  have hnr : next_pointer N (read_pointer x) < N := by
    unfold next_pointer
    exact Nat.mod_lt _ (by omega)
  rw [unlock_write_eq, unlock_read_eq]
  refine ⟨?_, ?_, ?_, ?_, ?_, ?_⟩
  · by_cases hC : idx = write_pointer x ∧ is_write_locked x = true
    · simp [hC]
    · simp [hC]
  · intro hs hc
    subst hc
    by_cases hC : idx = write_pointer x ∧ is_write_locked x = true
    · rw [if_pos hC]
      simp only [if_true]
      obtain ⟨hy1, hy2, hy3, hy4, hy5⟩ :=
        mwp_fields x (next_pointer N (write_pointer x)) hx (by omega)
      obtain ⟨hz1, hz2, hz3, hz4, hz5⟩ :=
        mwl_false_fields (mod_write_pointer x (next_pointer N (write_pointer x))) hy5
      refine ⟨?_, ?_, ?_, ?_⟩
      · rw [hz1, hy1, hC.1]
        rfl
      · rw [hz2, hy2]
      · rw [hz3, hy4]
      · exact hz4
    · rw [if_neg hC] at hs
      simp at hs
  · intro hs hc
    subst hc
    by_cases hC : idx = write_pointer x ∧ is_write_locked x = true
    · rw [if_pos hC]
      simp only [if_false, Bool.false_eq_true]
      obtain ⟨hz1, hz2, hz3, hz4, hz5⟩ := mwl_false_fields x hx
      exact ⟨hz1, hz2, hz3, hz4⟩
    · rw [if_neg hC] at hs
      simp at hs
  · by_cases hC : idx = read_pointer x ∧ is_read_locked x = true
    · simp [hC]
    · simp [hC]
  · intro hs hc
    subst hc
    by_cases hC : idx = read_pointer x ∧ is_read_locked x = true
    · rw [if_pos hC]
      simp only [if_true]
      obtain ⟨hy1, hy2, hy3, hy4, hy5⟩ :=
        mrp_fields x (next_pointer N (read_pointer x)) hx (by omega)
      obtain ⟨hz1, hz2, hz3, hz4, hz5⟩ :=
        mrl_false_fields (mod_read_pointer x (next_pointer N (read_pointer x))) hy5
      refine ⟨?_, ?_, ?_, ?_⟩
      · rw [hz2, hy1, hC.1]
        rfl
      · rw [hz1, hy2]
      · rw [hz3, hy3]
      · exact hz4
    · rw [if_neg hC] at hs
      simp at hs
  · intro hs hc
    subst hc
    by_cases hC : idx = read_pointer x ∧ is_read_locked x = true
    · rw [if_pos hC]
      simp only [if_false, Bool.false_eq_true]
      obtain ⟨hz1, hz2, hz3, hz4, hz5⟩ := mrl_false_fields x hx
      exact ⟨hz2, hz1, hz3, hz4⟩
    · rw [if_neg hC] at hs
      simp at hs

/-- Witness for `unlock_write_read_spec` at `N = 4`, `x = 32768`
(write-locked, both pointers 0), `idx = 0`, `commit = true`. -/
theorem unlock_write_read_spec_witness :
    (2 ≤ 4 ∧ WF 4 32768) ∧
    ((unlock_write 4 32768 0 true).1 = true ↔
        0 = write_pointer 32768 ∧ is_write_locked 32768 = true) :=
  ⟨⟨by norm_num, by decide⟩,
    (unlock_write_read_spec 4 32768 0 true (by norm_num) (by norm_num)
      (by decide)).1⟩

/-- C4: whenever any of the five mutating operations reports failure, the
state word after the call equals the word before it: the precondition check
exits the retry loop before the compare-and-swap is attempted. -/
theorem failure_leaves_word_unchanged (N x mf mr idx : Nat) (c : Bool) :
    ((lock_write N x mf).1 = false → (lock_write N x mf).2.1 = x) ∧
    ((unlock_write N x idx c).1 = false → (unlock_write N x idx c).2 = x) ∧
    ((lock_read N x mr).1 = false → (lock_read N x mr).2.1 = x) ∧
    ((unlock_read N x idx c).1 = false → (unlock_read N x idx c).2 = x) ∧
    ((try_clear x).1 = false → (try_clear x).2 = x) := by
  refine ⟨?_, ?_, ?_, ?_, ?_⟩
  · simp only [lock_write]
    split
    · simp
    · split
      · simp
      · simp
  · rw [unlock_write_eq]
    by_cases hC : idx = write_pointer x ∧ is_write_locked x = true
    · simp [hC]
    · simp [hC]
  · simp only [lock_read]
    split
    · simp
    · split
      · simp
      · simp
  · rw [unlock_read_eq]
    by_cases hC : idx = read_pointer x ∧ is_read_locked x = true
    · simp [hC]
    · simp [hC]
  · rw [try_clear_eq]
    by_cases hC : is_write_locked x = false ∧ is_read_locked x = false
    · simp [hC]
    · simp [hC]

/-- Witness for `failure_leaves_word_unchanged`: a write-locked word makes
`lock_write` fail and leaves the word unchanged. -/
theorem failure_leaves_word_unchanged_witness :
    (lock_write 4 32768 0).1 = false ∧ (lock_write 4 32768 0).2.1 = 32768 :=
  ⟨by decide, (failure_leaves_word_unchanged 4 32768 0 0 5 true).1 (by decide)⟩

/-- C6: `try_clear` fails iff either lock bit is held; on success it sets
`read_pointer := write_pointer` in one step, leaves `write_pointer` and both
lock bits unchanged, and afterwards `size` is `0` and `empty` is `true`. -/
theorem try_clear_spec (N x : Nat) (h2 : 2 ≤ N) (h15 : N ≤ 32768)
    (hwf : WF N x) :
    ((try_clear x).1 = true ↔
        is_write_locked x = false ∧ is_read_locked x = false) ∧
    ((try_clear x).1 = false ↔
        is_write_locked x = true ∨ is_read_locked x = true) ∧
    ((try_clear x).1 = true →
        read_pointer (try_clear x).2 = write_pointer x ∧
        write_pointer (try_clear x).2 = write_pointer x ∧
        is_write_locked (try_clear x).2 = is_write_locked x ∧
        is_read_locked (try_clear x).2 = is_read_locked x ∧
        size N (try_clear x).2 = 0 ∧
        empty (try_clear x).2 = true) := by
  obtain ⟨hx, hw, hr⟩ := hwf
  obtain ⟨hy1, hy2, hy3, hy4, hy5⟩ := mrp_fields x (write_pointer x) hx (by omega)
  rw [try_clear_eq]
  refine ⟨?_, ?_, ?_⟩
  · cases hbw : is_write_locked x <;> cases hbr : is_read_locked x <;>
      simp [hbw, hbr]
  · cases hbw : is_write_locked x <;> cases hbr : is_read_locked x <;>
      simp [hbw, hbr]
  · intro hs
    by_cases hC : is_write_locked x = false ∧ is_read_locked x = false
    · rw [if_pos hC]
      refine ⟨hy1, hy2, hy3, hy4, ?_, ?_⟩
      · rw [size, count_eq N _ (by omega) (by rw [hy1]; omega) (by rw [hy2]; omega),
          hy1, hy2]
        simp
      · rw [empty, hy1, hy2]
        simp
    · rw [if_neg hC] at hs
      simp at hs

/-- Witness for `try_clear_spec` at `N = 4`, `x = 3` (three items queued,
no locks held). -/
theorem try_clear_spec_witness :
    (2 ≤ 4 ∧ WF 4 3) ∧
    ((try_clear 3).1 = true ↔
        is_write_locked 3 = false ∧ is_read_locked 3 = false) :=
  ⟨⟨by norm_num, by decide⟩,
    (try_clear_spec 4 3 (by norm_num) (by norm_num) (by decide)).1⟩

/-!
### Reachable states
-/

/-- One call of a mutating public operation (with its arguments). -/
inductive Op where
  | lockW (minFree : Nat)
  | unlockW (idx : Nat) (commit : Bool)
  | lockR (minRemains : Nat)
  | unlockR (idx : Nat) (commit : Bool)
  | tryClear
deriving DecidableEq

/-- The state word after one operation call (failed calls leave it as is). -/
def applyOp (N x : Nat) : Op → Nat
  | .lockW m => (lock_write N x m).2.1
  | .unlockW i c => (unlock_write N x i c).2
  | .lockR m => (lock_read N x m).2.1
  | .unlockR i c => (unlock_read N x i c).2
  | .tryClear => (try_clear x).2

/-- The state word after a sequence of operation calls starting from the
all-zero word of a freshly constructed buffer. -/
def run (N : Nat) (ops : List Op) : Nat := ops.foldl (applyOp N) 0

/-- Each operation preserves well-formedness of the state word. -/
lemma applyOp_wf (N x : Nat) (op : Op) (h2 : 2 ≤ N) (h15 : N ≤ 32768)
    (hwf : WF N x) : WF N (applyOp N x op) := by
  obtain ⟨hx, hw, hr⟩ := hwf
  cases op with
  | lockW m =>
    rw [applyOp, lock_write_eq N x m (by omega) ⟨hx, hw, hr⟩]
    split
    · obtain ⟨h1, h2', h3, h4, h5⟩ := mwl_true_fields x hx
      exact ⟨h5, by rw [h1]; exact hw, by rw [h2']; exact hr⟩
    · exact ⟨hx, hw, hr⟩
  | unlockW i c =>
    rw [applyOp, unlock_write_eq]
    split
    · cases c with
      | true =>
        have hnw : next_pointer N (write_pointer x) < N := by
          unfold next_pointer
          exact Nat.mod_lt _ (by omega)
        obtain ⟨hy1, hy2, hy3, hy4, hy5⟩ :=
          mwp_fields x (next_pointer N (write_pointer x)) hx (by omega)
        obtain ⟨hz1, hz2, hz3, hz4, hz5⟩ :=
          mwl_false_fields (mod_write_pointer x (next_pointer N (write_pointer x))) hy5
        simp only [if_true]
        exact ⟨hz5, by rw [hz1, hy1]; exact hnw, by rw [hz2, hy2]; exact hr⟩
      | false =>
        obtain ⟨hz1, hz2, hz3, hz4, hz5⟩ := mwl_false_fields x hx
        simp only [Bool.false_eq_true, if_false]
        exact ⟨hz5, by rw [hz1]; exact hw, by rw [hz2]; exact hr⟩
    · exact ⟨hx, hw, hr⟩
  | lockR m =>
    rw [applyOp, lock_read_eq N x m ⟨hx, hw, hr⟩]
    split
    · obtain ⟨h1, h2', h3, h4, h5⟩ := mrl_true_fields x hx
      exact ⟨h5, by rw [h1]; exact hw, by rw [h2']; exact hr⟩
    · exact ⟨hx, hw, hr⟩
  | unlockR i c =>
    rw [applyOp, unlock_read_eq]
    split
    · cases c with
      | true =>
        have hnr : next_pointer N (read_pointer x) < N := by
          unfold next_pointer
          exact Nat.mod_lt _ (by omega)
        obtain ⟨hy1, hy2, hy3, hy4, hy5⟩ :=
          mrp_fields x (next_pointer N (read_pointer x)) hx (by omega)
        obtain ⟨hz1, hz2, hz3, hz4, hz5⟩ :=
          mrl_false_fields (mod_read_pointer x (next_pointer N (read_pointer x))) hy5
        simp only [if_true]
        exact ⟨hz5, by rw [hz1, hy2]; exact hw, by rw [hz2, hy1]; exact hnr⟩
      | false =>
        obtain ⟨hz1, hz2, hz3, hz4, hz5⟩ := mrl_false_fields x hx
        simp only [Bool.false_eq_true, if_false]
        exact ⟨hz5, by rw [hz1]; exact hw, by rw [hz2]; exact hr⟩
    · exact ⟨hx, hw, hr⟩
  | tryClear =>
    rw [applyOp, try_clear_eq]
    split
    · obtain ⟨hy1, hy2, hy3, hy4, hy5⟩ := mrp_fields x (write_pointer x) hx (by omega)
      exact ⟨hy5, by rw [hy2]; exact hw, by rw [hy1]; exact hw⟩
    · exact ⟨hx, hw, hr⟩

/-- Every state reachable from the zero word is well-formed. -/
lemma run_wf (N : Nat) (ops : List Op) (h2 : 2 ≤ N) (h15 : N ≤ 32768) :
    WF N (run N ops) := by
  have hstep : ∀ (l : List Op) (x : Nat), WF N x → WF N (l.foldl (applyOp N) x) := by
    intro l
    induction l with
    | nil => intro x hx; exact hx
    | cons op t ih =>
      intro x hx
      exact ih (applyOp N x op) (applyOp_wf N x op h2 h15 hx)
  refine hstep ops 0 ⟨by norm_num, ?_, ?_⟩
  · rw [write_pointer_eq]
    omega
  · rw [read_pointer_eq]
    omega

/-- On a well-formed word, `count` is the mathematical value
`(write_pointer - read_pointer) mod N`. -/
lemma count_int_emod (N x : Nat) (h2 : 2 ≤ N) (h15 : N ≤ 32768) (hwf : WF N x) :
    ((write_pointer x : Int) - (read_pointer x : Int)) % (N : Int)
      = (count N x : Int) := by
  obtain ⟨hx, hw, hr⟩ := hwf
  rw [count_eq N x (by omega) hr hw]
  by_cases hc : read_pointer x ≤ write_pointer x
  · rw [if_pos hc]
    have he : ((write_pointer x : Int) - (read_pointer x : Int))
        = ((write_pointer x - read_pointer x : Nat) : Int) := by omega
    rw [he]
    apply Int.emod_eq_of_lt
    · omega
    · omega
  · rw [if_neg hc]
    have hkey := Int.add_mul_emod_self_left
      (a := (write_pointer x : Int) - (read_pointer x : Int))
      (b := (N : Int)) (c := 1)
    rw [mul_one] at hkey
    rw [← hkey]
    have he : (write_pointer x : Int) - (read_pointer x : Int) + (N : Int)
        = ((N - read_pointer x + write_pointer x : Nat) : Int) := by omega
    rw [he]
    apply Int.emod_eq_of_lt
    · omega
    · omega

/-- C5: in every state reachable from the freshly constructed (all-zero) word
through the public operations, both pointers lie in `[0, N)`, the filled-slot
count equals `(write_pointer - read_pointer) mod N` and is at most `N - 1`,
`size` returns that count, and `capacity` is the constant `N - 1`. -/
theorem reachable_invariant (N : Nat) (hp : ∃ j, N = 2 ^ j) (h2 : 2 ≤ N)
    (h15 : N ≤ 32768) (ops : List Op) :
    write_pointer (run N ops) < N ∧
    read_pointer (run N ops) < N ∧
    ((write_pointer (run N ops) : Int) - (read_pointer (run N ops) : Int))
        % (N : Int) = (count N (run N ops) : Int) ∧
    count N (run N ops) ≤ N - 1 ∧
    size N (run N ops) = count N (run N ops) ∧
    capacity N = N - 1 := by
  obtain ⟨hx, hw, hr⟩ := run_wf N ops h2 h15
  exact ⟨hw, hr, count_int_emod N _ h2 h15 ⟨hx, hw, hr⟩,
    count_le N _ (by omega) hr hw, rfl, rfl⟩

/-- Witness for `reachable_invariant`: a write-commit cycle then `try_clear`
at `N = 4`. -/
theorem reachable_invariant_witness :
    ((∃ j, (4 : Nat) = 2 ^ j) ∧ 2 ≤ 4) ∧
    write_pointer (run 4 [Op.lockW 0, Op.unlockW 0 true, Op.tryClear]) < 4 ∧
    count 4 (run 4 [Op.lockW 0, Op.unlockW 0 true, Op.tryClear]) ≤ 4 - 1 :=
  ⟨⟨⟨2, rfl⟩, by norm_num⟩,
    (reachable_invariant 4 ⟨2, rfl⟩ (by norm_num) (by norm_num)
      [Op.lockW 0, Op.unlockW 0 true, Op.tryClear]).1,
    (reachable_invariant 4 ⟨2, rfl⟩ (by norm_num) (by norm_num)
      [Op.lockW 0, Op.unlockW 0 true, Op.tryClear]).2.2.2.1⟩

/-- C10: in every reachable state both pointer fields are 15-bit values below
`N`, every index returned by a successful `lock_write` / `lock_read` is a
valid storage index and never the sentinel `INVALID_INDEX`, and unlocking
with `INVALID_INDEX` always fails. -/
theorem valid_index_spec (N : Nat) (hp : ∃ j, N = 2 ^ j) (h2 : 2 ≤ N)
    (h15 : N ≤ 32768) (ops : List Op) (mf mr : Nat) (c : Bool) :
    write_pointer (run N ops) < 2 ^ 15 ∧
    read_pointer (run N ops) < 2 ^ 15 ∧
    write_pointer (run N ops) < N ∧
    read_pointer (run N ops) < N ∧
    ((lock_write N (run N ops) mf).1 = true →
        (lock_write N (run N ops) mf).2.2 < N ∧
        (lock_write N (run N ops) mf).2.2 ≠ INVALID_INDEX) ∧
    ((lock_read N (run N ops) mr).1 = true →
        (lock_read N (run N ops) mr).2.2 < N ∧
        (lock_read N (run N ops) mr).2.2 ≠ INVALID_INDEX) ∧
    (unlock_write N (run N ops) INVALID_INDEX c).1 = false ∧
    (unlock_read N (run N ops) INVALID_INDEX c).1 = false := by
  obtain ⟨hx, hw, hr⟩ := run_wf N ops h2 h15
  have hw15 : write_pointer (run N ops) < 2 ^ 15 := by
    rw [write_pointer_eq]
    omega
  have hr15 : read_pointer (run N ops) < 2 ^ 15 := by
    rw [read_pointer_eq]
    omega
  refine ⟨hw15, hr15, hw, hr, ?_, ?_, ?_, ?_⟩
  · intro hs
    rw [lock_write_eq N _ mf (by omega) ⟨hx, hw, hr⟩] at hs ⊢
    by_cases hC : is_write_locked (run N ops) = false ∧
        mf < (N - 1) - count N (run N ops)
    · rw [if_pos hC]
      refine ⟨hw, ?_⟩
      show write_pointer (run N ops) ≠ INVALID_INDEX
      rw [INVALID_INDEX]
      omega
    · rw [if_neg hC] at hs
      simp at hs
  · intro hs
    rw [lock_read_eq N _ mr ⟨hx, hw, hr⟩] at hs ⊢
    by_cases hC : is_read_locked (run N ops) = false ∧
        mr < count N (run N ops)
    · rw [if_pos hC]
      refine ⟨hr, ?_⟩
      show read_pointer (run N ops) ≠ INVALID_INDEX
      rw [INVALID_INDEX]
      omega
    · rw [if_neg hC] at hs
      simp at hs
  · have hno : ¬ (INVALID_INDEX = write_pointer (run N ops) ∧
        is_write_locked (run N ops) = true) := by
      intro hC
      have h1 := hC.1
      rw [INVALID_INDEX] at h1
      omega
    rw [unlock_write_eq, if_neg hno]
  · have hno : ¬ (INVALID_INDEX = read_pointer (run N ops) ∧
        is_read_locked (run N ops) = true) := by
      intro hC
      have h1 := hC.1
      rw [INVALID_INDEX] at h1
      omega
    rw [unlock_read_eq, if_neg hno]

/-- Witness for `valid_index_spec`: after one committed write at `N = 4`,
`lock_write` returns index `1`, a valid non-sentinel index. -/
theorem valid_index_spec_witness :
    ((∃ j, (4 : Nat) = 2 ^ j) ∧
      (lock_write 4 (run 4 [Op.lockW 0, Op.unlockW 0 true]) 0).1 = true) ∧
    ((lock_write 4 (run 4 [Op.lockW 0, Op.unlockW 0 true]) 0).2.2 < 4 ∧
      (lock_write 4 (run 4 [Op.lockW 0, Op.unlockW 0 true]) 0).2.2
        ≠ INVALID_INDEX) :=
  ⟨⟨⟨2, rfl⟩, by decide⟩,
    (valid_index_spec 4 ⟨2, rfl⟩ (by norm_num) (by norm_num)
      [Op.lockW 0, Op.unlockW 0 true] 0 0 true).2.2.2.2.1 (by decide)⟩

/-!
### Abort cycles and `prev_pointer`
-/

/-- A `lock_write` immediately followed by `unlock_write(commit = false)` on
the returned index (the producer-side abort cycle). -/
def write_abort_cycle (N x : Nat) : Nat :=
  (unlock_write N (lock_write N x 0).2.1 (lock_write N x 0).2.2 false).2

/-- A `lock_read` immediately followed by `unlock_read(commit = false)` on
the returned index (the consumer-side abort cycle). -/
def read_abort_cycle (N x : Nat) : Nat :=
  (unlock_read N (lock_read N x 0).2.1 (lock_read N x 0).2.2 false).2

/-- A write abort cycle restores the state word exactly. -/
lemma write_abort_cycle_eq (N x : Nat) (h2 : 2 ≤ N) (h15 : N ≤ 32768)
    (hwf : WF N x) : write_abort_cycle N x = x := by
  obtain ⟨hx, hw, hr⟩ := hwf
  rw [write_abort_cycle, lock_write_eq N x 0 (by omega) ⟨hx, hw, hr⟩]
  by_cases hC : is_write_locked x = false ∧ 0 < (N - 1) - count N x
  · rw [if_pos hC]
    show (unlock_write N (mod_write_locked x true) (write_pointer x) false).2 = x
    obtain ⟨h1, h2', h3, h4, h5⟩ := mwl_true_fields x hx
    rw [unlock_write_eq, if_pos ⟨h1.symm, h4⟩]
    show mod_write_locked (mod_write_locked x true) false = x
    rw [mod_write_locked_false _ h5, mod_write_locked_true]
    have hb := hC.1
    rw [is_write_locked_eq] at hb
    simp only [decide_eq_false_iff_not] at hb
    omega
  · rw [if_neg hC]
    show (unlock_write N x INVALID_INDEX false).2 = x
    have hno : ¬ (INVALID_INDEX = write_pointer x ∧ is_write_locked x = true) := by
      intro hC2
      have h1 := hC2.1
      rw [INVALID_INDEX, write_pointer_eq] at h1
      omega
    rw [unlock_write_eq, if_neg hno]

/-- A read abort cycle restores the state word exactly. -/
lemma read_abort_cycle_eq (N x : Nat) (h2 : 2 ≤ N) (h15 : N ≤ 32768)
    (hwf : WF N x) : read_abort_cycle N x = x := by
  obtain ⟨hx, hw, hr⟩ := hwf
  rw [read_abort_cycle, lock_read_eq N x 0 ⟨hx, hw, hr⟩]
  by_cases hC : is_read_locked x = false ∧ 0 < count N x
  · rw [if_pos hC]
    show (unlock_read N (mod_read_locked x true) (read_pointer x) false).2 = x
    obtain ⟨h1, h2', h3, h4, h5⟩ := mrl_true_fields x hx
    rw [unlock_read_eq, if_pos ⟨h2'.symm, h4⟩]
    show mod_read_locked (mod_read_locked x true) false = x
    rw [mod_read_locked_false, mod_read_locked_true x hx]
    have hb := hC.1
    rw [is_read_locked_eq] at hb
    simp only [decide_eq_false_iff_not] at hb
    omega
  · rw [if_neg hC]
    show (unlock_read N x INVALID_INDEX false).2 = x
    have hno : ¬ (INVALID_INDEX = read_pointer x ∧ is_read_locked x = true) := by
      intro hC2
      have h1 := hC2.1
      rw [INVALID_INDEX, read_pointer_eq] at h1
      omega
    rw [unlock_read_eq, if_neg hno]

/-- C7: aborted reservations are no-ops on the observable state: any number
of `lock_write` / `unlock_write(commit = false)` cycles (and likewise
`lock_read` / `unlock_read(commit = false)` cycles) leaves the state word —
hence `size` and all future read order — exactly as it was, and on an
unlocked state with room (resp. data) both the lock and the abort unlock
report success. -/
theorem abort_cycles_noop (N x : Nat) (h2 : 2 ≤ N) (h15 : N ≤ 32768)
    (hwf : WF N x) :
    (∀ n, Nat.iterate (write_abort_cycle N) n x = x) ∧
    (∀ n, Nat.iterate (read_abort_cycle N) n x = x) ∧
    (∀ n, size N (Nat.iterate (write_abort_cycle N) n x) = size N x) ∧
    (is_write_locked x = false → 0 < (N - 1) - count N x →
      (lock_write N x 0).1 = true ∧
      (unlock_write N (lock_write N x 0).2.1 (lock_write N x 0).2.2 false).1
        = true) ∧
    (is_read_locked x = false → 0 < count N x →
      (lock_read N x 0).1 = true ∧
      (unlock_read N (lock_read N x 0).2.1 (lock_read N x 0).2.2 false).1
        = true) := by
  obtain ⟨hx, hw, hr⟩ := hwf
  have hwit : ∀ n, Nat.iterate (write_abort_cycle N) n x = x := by
    intro n
    induction n with
    | zero => rfl
    | succ k ih =>
      rw [Function.iterate_succ_apply,
        write_abort_cycle_eq N x h2 h15 ⟨hx, hw, hr⟩, ih]
  have hrit : ∀ n, Nat.iterate (read_abort_cycle N) n x = x := by
    intro n
    induction n with
    | zero => rfl
    | succ k ih =>
      rw [Function.iterate_succ_apply,
        read_abort_cycle_eq N x h2 h15 ⟨hx, hw, hr⟩, ih]
  refine ⟨hwit, hrit, fun n => by rw [hwit n], ?_, ?_⟩
  · intro hbw hroom
    rw [lock_write_eq N x 0 (by omega) ⟨hx, hw, hr⟩, if_pos ⟨hbw, hroom⟩]
    obtain ⟨h1, h2', h3, h4, h5⟩ := mwl_true_fields x hx
    refine ⟨rfl, ?_⟩
    show (unlock_write N (mod_write_locked x true) (write_pointer x) false).1
      = true
    rw [unlock_write_eq, if_pos ⟨h1.symm, h4⟩]
  · intro hbr hdata
    rw [lock_read_eq N x 0 ⟨hx, hw, hr⟩, if_pos ⟨hbr, hdata⟩]
    obtain ⟨h1, h2', h3, h4, h5⟩ := mrl_true_fields x hx
    refine ⟨rfl, ?_⟩
    show (unlock_read N (mod_read_locked x true) (read_pointer x) false).1
      = true
    rw [unlock_read_eq, if_pos ⟨h2'.symm, h4⟩]

/-- Witness for `abort_cycles_noop` at `N = 4`, `x = 0`: two abort cycles
leave the word at `0` and the single cycle's lock succeeds. -/
theorem abort_cycles_noop_witness :
    (2 ≤ 4 ∧ WF 4 0 ∧ is_write_locked 0 = false ∧ 0 < (4 - 1) - count 4 0) ∧
    Nat.iterate (write_abort_cycle 4) 2 0 = 0 ∧
    (lock_write 4 0 0).1 = true :=
  ⟨⟨by norm_num, by decide, by decide, by decide⟩,
    (abort_cycles_noop 4 0 (by norm_num) (by norm_num) (by decide)).1 2,
    ((abort_cycles_noop 4 0 (by norm_num) (by norm_num)
      (by decide)).2.2.2.1 (by decide) (by decide)).1⟩

/-- C9: for `N` a power of two with `2 ≤ N ≤ 32768` and `x < N`, the helper
`prev_pointer`, computed in the source as 32-bit wraparound subtraction
`(x - 1U)` followed by `% N`, equals `(x + N - 1) mod N`: it returns `N - 1`
at `x = 0` and `x - 1` otherwise. -/
theorem prev_pointer_spec (N x : Nat) (hp : ∃ j, N = 2 ^ j) (h2 : 2 ≤ N)
    (h15 : N ≤ 32768) (hx : x < N) :
    prev_pointer N x = (x + N - 1) % N ∧
    (x = 0 → prev_pointer N x = N - 1) ∧
    (1 ≤ x → prev_pointer N x = x - 1) := by
  obtain ⟨j, hj⟩ := hp
  have hj15 : j ≤ 15 := by
    by_contra hcon
    have h16 : (2 : Nat) ^ 16 ≤ 2 ^ j := Nat.pow_le_pow_right (by norm_num) (by omega)
    omega
  have hdvd : N ∣ 2 ^ 32 := by
    rw [hj]
    exact pow_dvd_pow 2 (by omega)
  obtain ⟨m, hm⟩ := hdvd
  by_cases h0 : x = 0
  · subst h0
    have hmain : prev_pointer N 0 = N - 1 := by
      have hsplit : 2 ^ 32 - 1 = (N - 1) + (m - 1) * N := by
        rcases m with _ | k
        · simp at hm
        · have hmuls : N * (k + 1) = N * k + N := Nat.mul_succ N k
          have hmc : (k + 1 - 1) * N = N * k := by
            rw [Nat.mul_comm]
            simp
          omega
      rw [prev_pointer, Nat.zero_add,
        Nat.mod_eq_of_lt (by norm_num : 2 ^ 32 - 1 < 2 ^ 32), hsplit,
        Nat.add_mul_mod_self_right, Nat.mod_eq_of_lt (by omega)]
    refine ⟨?_, fun _ => hmain, fun hc => absurd hc (by omega)⟩
    rw [hmain, Nat.zero_add, Nat.mod_eq_of_lt (by omega)]
  · have hx1 : 1 ≤ x := by omega
    have hmain : prev_pointer N x = x - 1 := by
      have hshift : x + (2 ^ 32 - 1) = (x - 1) + 2 ^ 32 := by omega
      rw [prev_pointer, hshift, Nat.add_mod_right,
        Nat.mod_eq_of_lt (by omega : x - 1 < 2 ^ 32),
        Nat.mod_eq_of_lt (by omega : x - 1 < N)]
    refine ⟨?_, fun hc => absurd hc h0, fun _ => hmain⟩
    have hshift2 : x + N - 1 = (x - 1) + N := by omega
    rw [hmain, hshift2, Nat.add_mod_right, Nat.mod_eq_of_lt (by omega)]

/-- Witness for `prev_pointer_spec` at `N = 8`, `x = 0`: wraparound
subtraction lands on `7`. -/
theorem prev_pointer_spec_witness :
    ((∃ j, (8 : Nat) = 2 ^ j) ∧ (0 : Nat) < 8) ∧
    prev_pointer 8 0 = (0 + 8 - 1) % 8 ∧
    prev_pointer 8 0 = 8 - 1 :=
  ⟨⟨⟨3, rfl⟩, by norm_num⟩,
    (prev_pointer_spec 8 0 ⟨3, rfl⟩ (by norm_num) (by norm_num)
      (by norm_num)).1,
    (prev_pointer_spec 8 0 ⟨3, rfl⟩ (by norm_num) (by norm_num)
      (by norm_num)).2.1 rfl⟩

/-!
### The round-trip client: write cycles then read cycles over the storage
-/

/-- A buffer: the packed state word `rpwp_` plus the storage array
`elements_` (modelled as a total map from indices to values). -/
structure Buffer (α : Type) where
  word : Nat
  elems : Nat → α

/-- One producer cycle: `lock_write`, store `v` through `at(index)`, then
`unlock_write(index, commit = true)`. -/
def writeCycle (N : Nat) {α : Type} (b : Buffer α) (v : α) : Bool × Buffer α :=
  let r := lock_write N b.word 0
  if r.1 then
    let e := fun j => if j = r.2.2 then v else b.elems j
    let u := unlock_write N r.2.1 r.2.2 true
    (u.1, ⟨u.2, e⟩)
  else
    (false, ⟨r.2.1, b.elems⟩)

/-- One consumer cycle: `lock_read`, load `at(index)`, then
`unlock_read(index, commit = true)`. -/
def readCycle (N : Nat) {α : Type} (b : Buffer α) : Bool × Buffer α × α :=
  let r := lock_read N b.word 0
  if r.1 then
    let v := b.elems r.2.2
    let u := unlock_read N r.2.1 r.2.2 true
    (u.1, ⟨u.2, b.elems⟩, v)
  else
    (false, ⟨r.2.1, b.elems⟩, b.elems r.2.2)

/-- Sequential committed writes of a list of values. -/
def writeSeq (N : Nat) {α : Type} : List α → Buffer α → Bool × Buffer α
  | [], b => (true, b)
  | v :: vs, b =>
    let r := writeCycle N b v
    let rest := writeSeq N vs r.2
    (r.1 && rest.1, rest.2)

/-- `n` sequential committed reads, collecting the values in order. -/
def readSeq (N : Nat) {α : Type} : Nat → Buffer α → Bool × Buffer α × List α
  | 0, b => (true, b, [])
  | n + 1, b =>
    let r := readCycle N b
    let rest := readSeq N n r.2.1
    (r.1 && rest.1, rest.2.1, r.2.2 :: rest.2.2)

/-- A write cycle from the canonical state `word = i` (write pointer `i`,
read pointer `0`, no locks) succeeds, stores `v` at slot `i`, and advances
the word to `i + 1`. -/
lemma writeCycle_step {α : Type} (N i : Nat) (e : Nat → α) (v : α)
    (h2 : 2 ≤ N) (h15 : N ≤ 32768) (hi : i < N - 1) :
    writeCycle N (⟨i, e⟩ : Buffer α) v =
      (true, ⟨i + 1, fun j => if j = i then v else e j⟩) := by
  have hwp : write_pointer i = i := by
    rw [write_pointer_eq]
    omega
  have hrp : read_pointer i = 0 := by
    rw [read_pointer_eq]
    omega
  have hwf : WF N i := ⟨by omega, by rw [hwp]; omega, by rw [hrp]; omega⟩
  have hbw : is_write_locked i = false := by
    rw [is_write_locked_eq]
    simp only [decide_eq_false_iff_not]
    omega
  have hcnt : count N i = i := by
    rw [count_eq N i (by omega) (by rw [hrp]; omega) (by rw [hwp]; omega),
      if_pos (by rw [hrp]; omega), hwp, hrp]
    omega
  have hmwl : mod_write_locked i true = 2 ^ 15 + i := by
    rw [mod_write_locked_true]
    omega
  have hlock : lock_write N i 0 = (true, 2 ^ 15 + i, i) := by
    rw [lock_write_eq N i 0 (by omega) hwf,
      if_pos ⟨hbw, by rw [hcnt]; omega⟩, hmwl, hwp]
  have hwp2 : write_pointer (2 ^ 15 + i) = i := by
    rw [write_pointer_eq]
    omega
  have hbw2 : is_write_locked (2 ^ 15 + i) = true := by
    rw [is_write_locked_eq]
    simp only [decide_eq_true_eq]
    omega
  have hnp : next_pointer N i = i + 1 := by
    rw [next_pointer, Nat.mod_eq_of_lt (by omega)]
  have hmwp : mod_write_pointer (2 ^ 15 + i) (i + 1) = 2 ^ 15 + (i + 1) := by
    rw [mod_write_pointer_eq _ _ (by omega) (by omega)]
    omega
  have hmwlf : mod_write_locked (2 ^ 15 + (i + 1)) false = i + 1 := by
    rw [mod_write_locked_false _ (by omega)]
    omega
  have hunlock : unlock_write N (2 ^ 15 + i) i true = (true, i + 1) := by
    rw [unlock_write_eq, if_pos ⟨hwp2.symm, hbw2⟩]
    simp only [if_true]
    rw [hwp2, hnp, hmwp, hmwlf]
  simp only [writeCycle, hlock, hunlock]
  rw [if_pos trivial]

/-- A read cycle from the canonical state `word = 2^16*j + k` (read pointer
`j`, write pointer `k`, no locks) with `j < k` succeeds, returns slot `j`,
and advances the read pointer. -/
lemma readCycle_step {α : Type} (N j k : Nat) (e : Nat → α)
    (h2 : 2 ≤ N) (h15 : N ≤ 32768) (hjk : j < k) (hk : k ≤ N - 1) :
    readCycle N (⟨2 ^ 16 * j + k, e⟩ : Buffer α) =
      (true, ⟨2 ^ 16 * (j + 1) + k, e⟩, e j) := by
  have hj15 : j < 2 ^ 15 := by omega
  have hk15 : k < 2 ^ 15 := by omega
  have hx : 2 ^ 16 * j + k < 2 ^ 31 := by omega
  have hwp : write_pointer (2 ^ 16 * j + k) = k := by
    rw [write_pointer_eq]
    omega
  have hrp : read_pointer (2 ^ 16 * j + k) = j := by
    rw [read_pointer_eq]
    omega
  have hwf : WF N (2 ^ 16 * j + k) :=
    ⟨by omega, by rw [hwp]; omega, by rw [hrp]; omega⟩
  have hbr : is_read_locked (2 ^ 16 * j + k) = false := by
    rw [is_read_locked_eq]
    simp only [decide_eq_false_iff_not]
    omega
  have hcnt : count N (2 ^ 16 * j + k) = k - j := by
    rw [count_eq N _ (by omega) (by rw [hrp]; omega) (by rw [hwp]; omega),
      if_pos (by rw [hrp, hwp]; omega), hwp, hrp]
  have hmrl : mod_read_locked (2 ^ 16 * j + k) true
      = 2 ^ 31 + (2 ^ 16 * j + k) := by
    rw [mod_read_locked_true _ (by omega)]
    omega
  have hlock : lock_read N (2 ^ 16 * j + k) 0
      = (true, 2 ^ 31 + (2 ^ 16 * j + k), j) := by
    rw [lock_read_eq N _ 0 hwf, if_pos ⟨hbr, by rw [hcnt]; omega⟩, hmrl, hrp]
  have hrp2 : read_pointer (2 ^ 31 + (2 ^ 16 * j + k)) = j := by
    rw [read_pointer_eq]
    omega
  have hbr2 : is_read_locked (2 ^ 31 + (2 ^ 16 * j + k)) = true := by
    rw [is_read_locked_eq]
    simp only [decide_eq_true_eq]
    omega
  have hnp : next_pointer N j = j + 1 := by
    rw [next_pointer, Nat.mod_eq_of_lt (by omega)]
  have hmrp : mod_read_pointer (2 ^ 31 + (2 ^ 16 * j + k)) (j + 1)
      = 2 ^ 31 + (2 ^ 16 * (j + 1) + k) := by
    rw [mod_read_pointer_eq _ _ (by omega) (by omega)]
    omega
  have hmrlf : mod_read_locked (2 ^ 31 + (2 ^ 16 * (j + 1) + k)) false
      = 2 ^ 16 * (j + 1) + k := by
    rw [mod_read_locked_false]
    omega
  have hunlock : unlock_read N (2 ^ 31 + (2 ^ 16 * j + k)) j true
      = (true, 2 ^ 16 * (j + 1) + k) := by
    rw [unlock_read_eq, if_pos ⟨hrp2.symm, hbr2⟩]
    simp only [if_true]
    rw [hrp2, hnp, hmrp, hmrlf]
  simp only [readCycle, hlock, hunlock]
  rw [if_pos trivial]

/-- Sequential writes from the canonical state `word = i`: all cycles
succeed, the word advances by the list length, and each value lands in its
slot (`elems (i + t) = vs[t]`, other slots untouched). -/
lemma writeSeq_ok {α : Type} (N : Nat) (h2 : 2 ≤ N) (h15 : N ≤ 32768) :
    ∀ (vs : List α) (i : Nat) (e : Nat → α), i + vs.length ≤ N - 1 →
      (writeSeq N vs ⟨i, e⟩).1 = true ∧
      (writeSeq N vs ⟨i, e⟩).2.word = i + vs.length ∧
      (∀ j, j < i → (writeSeq N vs ⟨i, e⟩).2.elems j = e j) ∧
      (∀ t, (writeSeq N vs ⟨i, e⟩).2.elems (i + t) = vs.getD t (e (i + t))) := by
  intro vs
  induction vs with
  | nil =>
    intro i e hle
    refine ⟨rfl, by simp [writeSeq], fun j hj => rfl, fun t => by simp [writeSeq]⟩
  | cons v tl ih =>
    intro i e hle
    have hlen : i + (v :: tl).length = (i + 1) + tl.length := by
      simp only [List.length_cons]
      omega
    have hstep := writeCycle_step N i e v h2 h15
      (by simp only [List.length_cons] at hle; omega)
    obtain ⟨ih1, ih2, ih3, ih4⟩ :=
      ih (i + 1) (fun j => if j = i then v else e j)
        (by simp only [List.length_cons] at hle; omega)
    refine ⟨?_, ?_, ?_, ?_⟩
    · simp only [writeSeq, hstep, ih1]
      rfl
    · simp only [writeSeq, hstep, ih2, hlen]
    · intro j hj
      simp only [writeSeq, hstep]
      rw [ih3 j (by omega)]
      simp only [if_neg (by omega : ¬ j = i)]
    · intro t
      simp only [writeSeq, hstep]
      rcases t with _ | s
      · rw [show i + 0 = i from rfl, ih3 i (by omega)]
        simp
      · have hidx : i + (s + 1) = (i + 1) + s := by omega
        rw [hidx, ih4 s, List.getD_cons_succ]
        by_cases hlt : s < tl.length
        · rw [List.getD_eq_getElem _ _ hlt, List.getD_eq_getElem _ _ hlt]
        · rw [List.getD_eq_default _ _ (by omega), List.getD_eq_default _ _ (by omega),
            if_neg (by omega : ¬ (i + 1) + s = i)]

/-- Sequential reads from the canonical state `word = 2^16*j + k`: all `n`
cycles succeed when `j + n ≤ k`, the read pointer advances by `n`, storage is
untouched, and the values come out in slot order `j, j+1, ...`. -/
lemma readSeq_ok {α : Type} (N : Nat) (h2 : 2 ≤ N) (h15 : N ≤ 32768) :
    ∀ (n j k : Nat) (e : Nat → α), j + n ≤ k → k ≤ N - 1 →
      (readSeq N n ⟨2 ^ 16 * j + k, e⟩).1 = true ∧
      (readSeq N n ⟨2 ^ 16 * j + k, e⟩).2.1.word = 2 ^ 16 * (j + n) + k ∧
      (readSeq N n ⟨2 ^ 16 * j + k, e⟩).2.1.elems = e ∧
      (readSeq N n ⟨2 ^ 16 * j + k, e⟩).2.2
        = (List.range n).map (fun t => e (j + t)) := by
  intro n
  induction n with
  | zero =>
    intro j k e hjn hk
    exact ⟨rfl, by simp [readSeq], rfl, by simp [readSeq]⟩
  | succ m ih =>
    intro j k e hjn hk
    have hstep := readCycle_step N j k e h2 h15 (by omega) hk
    obtain ⟨ih1, ih2, ih3, ih4⟩ := ih (j + 1) k e (by omega) hk
    refine ⟨?_, ?_, ?_, ?_⟩
    · simp only [readSeq, hstep, ih1]
      rfl
    · simp only [readSeq, hstep, ih2]
      have : j + 1 + m = j + (m + 1) := by omega
      rw [this]
    · simp only [readSeq, hstep, ih3]
    · simp only [readSeq, hstep, ih4]
      have hfun : (fun t => e (j + 1 + t)) = ((fun t => e (j + t)) ∘ Nat.succ) := by
        funext t
        simp only [Function.comp_apply]
        have : j + 1 + t = j + (t + 1) := by omega
        rw [this]
      rw [List.range_succ_eq_map, List.map_cons, List.map_map, hfun]
      simp

/-- C1: starting from a freshly constructed buffer, writing `v1..vk`
(`1 ≤ k ≤ N - 1`) by sequential `lock_write` / store / `unlock_write(true)`
cycles and then reading by `k` sequential `lock_read` / load /
`unlock_read(true)` cycles succeeds at every lock and unlock and yields
exactly `v1..vk` in FIFO order. -/
theorem fifo_roundtrip {α : Type} (N : Nat) (vs : List α) (e : Nat → α)
    (hp : ∃ j, N = 2 ^ j) (h2 : 2 ≤ N) (h15 : N ≤ 32768)
    (hk1 : 1 ≤ vs.length) (hk : vs.length ≤ N - 1) :
    (writeSeq N vs ⟨0, e⟩).1 = true ∧
    (readSeq N vs.length (writeSeq N vs ⟨0, e⟩).2).1 = true ∧
    (readSeq N vs.length (writeSeq N vs ⟨0, e⟩).2).2.2 = vs := by
  obtain ⟨w1, ww, wlow, wfill⟩ := writeSeq_ok N h2 h15 vs 0 e (by omega)
  have hb1 : (writeSeq N vs ⟨0, e⟩).2
      = ⟨2 ^ 16 * 0 + vs.length, (writeSeq N vs ⟨0, e⟩).2.elems⟩ := by
    have heta : (writeSeq N vs ⟨0, e⟩).2
        = ⟨(writeSeq N vs ⟨0, e⟩).2.word, (writeSeq N vs ⟨0, e⟩).2.elems⟩ := rfl
    rw [heta, ww]
    simp
  obtain ⟨r1, rw', rel, rout⟩ :=
    readSeq_ok N h2 h15 vs.length 0 vs.length
      (writeSeq N vs ⟨0, e⟩).2.elems (by omega) hk
  refine ⟨w1, ?_, ?_⟩
  · rw [hb1]
    exact r1
  · rw [hb1, rout]
    apply List.ext_getElem
    · simp
    · intro t h1 h2'
      simp only [List.getElem_map, List.getElem_range, Nat.zero_add]
      have hfill := wfill t
      rw [Nat.zero_add] at hfill
      rw [hfill, List.getD_eq_getElem _ _ h2']

/-- Witness for `fifo_roundtrip`: `N = 4`, values `[10, 20, 30]`. -/
theorem fifo_roundtrip_witness :
    ((∃ j, (4 : Nat) = 2 ^ j) ∧ 1 ≤ [10, 20, 30].length ∧
        [10, 20, 30].length ≤ 4 - 1) ∧
    (writeSeq 4 [10, 20, 30] ⟨0, fun _ => (0 : Nat)⟩).1 = true ∧
    (readSeq 4 [10, 20, 30].length
        (writeSeq 4 [10, 20, 30] ⟨0, fun _ => (0 : Nat)⟩).2).2.2
      = [10, 20, 30] :=
  ⟨⟨⟨2, rfl⟩, by norm_num, by norm_num⟩,
    (fifo_roundtrip 4 [10, 20, 30] (fun _ => 0) ⟨2, rfl⟩ (by norm_num)
      (by norm_num) (by norm_num) (by norm_num)).1,
    (fifo_roundtrip 4 [10, 20, 30] (fun _ => 0) ⟨2, rfl⟩ (by norm_num)
      (by norm_num) (by norm_num) (by norm_num)).2.2⟩

end Lockfree
